import Mathlib

/-!
Verification of the Coulomb feature-matrix builder of the
`Machine_Learning_Student_Cavity` notebook.

The notebook cell defines `coulomb(geom, q)`, which allocates
`np.zeros((natom, natom))` with `natom = len(q)` and returns it; the loop
that fills the matrix is left blank as a student exercise
(`# ==> YOUR CODE HERE <==`).  We embed that literal function as `coulomb`
below.  The completed builder (the formula stated in the notebook's markdown
and in the specification) is not present in the source, so it is modelled
from the spec as `coulombBase` / `coulombField`, with the validation and
error contract modelled as the relation `buildBase`.
-/

/-- A 3-component real coordinate vector. -/
abbrev Vec3 : Type := ℝ × ℝ × ℝ

/-- Shallow model of a numpy 2-D array: a shape together with an entry
function. -/
structure NpMatrix where
  rows : Nat
  cols : Nat
  entry : Nat → Nat → ℝ

/-- Model of `np.zeros((n, m))`: an n-by-m array of zeros. -/
def npZeros (n m : Nat) : NpMatrix :=
  { rows := n, cols := m, entry := fun _ _ => 0 }

/-- The `coulomb` function exactly as written in the notebook cell:
`natom = len(q)`, `cm = np.zeros((natom, natom))`, no filling loop
(left as a student exercise), `return cm`. -/
def coulomb (geom : List Vec3) (q : List ℝ) : NpMatrix :=
  let natom := q.length
  let cm := npZeros natom natom
  cm

/-- An atom: a 3-D position and a real-valued charge. -/
structure Atom where
  position : Vec3
  charge : ℝ

/-- Standard 3-vector inner product. -/
def dot3 (u v : Vec3) : ℝ :=
  u.1 * v.1 + u.2.1 * v.2.1 + u.2.2 * v.2.2

/-- Euclidean (L2) distance between two 3-D points. -/
noncomputable def dist3 (u v : Vec3) : ℝ :=
  Real.sqrt ((u.1 - v.1) ^ 2 + (u.2.1 - v.2.1) ^ 2 + (u.2.2 - v.2.2) ^ 2)

/-- Modelled from the spec: the completed Coulomb-matrix formula whose
filling loop is missing from the source (the cell body reads
`# ==> YOUR CODE HERE <==`).  Base (no-field) form: off-diagonal entries
are `charge_i * charge_j / distance(position_i, position_j)`, diagonal
entries are `0.5 * charge_i ^ 2.4` with real exponentiation. -/
noncomputable def coulombBase (atoms : List Atom) : Fin atoms.length → Fin atoms.length → ℝ :=
  fun i j =>
    if i = j then 0.5 * (atoms.get i).charge ^ (2.4 : ℝ)
    else ((atoms.get i).charge * (atoms.get j).charge) /
      dist3 (atoms.get i).position (atoms.get j).position

/-- Modelled from the spec: the field-extended (cavity-aware) variant, also
missing from the source.  Off-diagonal entries are unchanged; the diagonal
gains the coupling term `alpha * (charge_i * dot(position_i, lam)) ^ 2`. -/
noncomputable def coulombField (atoms : List Atom) (lam : Vec3) (alpha : ℝ) :
    Fin atoms.length → Fin atoms.length → ℝ :=
  fun i j =>
    if i = j then
      0.5 * (atoms.get i).charge ^ (2.4 : ℝ) +
        alpha * ((atoms.get i).charge * dot3 (atoms.get i).position lam) ^ 2
    else ((atoms.get i).charge * (atoms.get j).charge) /
      dist3 (atoms.get i).position (atoms.get j).position

/-- Valid input for the builder: at least one atom and pairwise-distinct
positions. -/
def validInput (atoms : List Atom) : Prop :=
  atoms ≠ [] ∧ ∀ i j : Fin atoms.length, i ≠ j →
    (atoms.get i).position ≠ (atoms.get j).position

/-- Possible outcomes of one builder call: a complete matrix, or the single
`InvalidInput` error kind. -/
inductive BuildOutcome (n : Nat) : Type
  | ok (m : Fin n → Fin n → ℝ) : BuildOutcome n
  | invalidInput : BuildOutcome n

/-- Modelled from the spec: the full builder contract, including the
`InvalidInput` error path that the source never implements.  A call either
returns the complete base-form matrix (valid input) or fails atomically
with `InvalidInput` (empty atom list or coincident positions). -/
def buildBase (atoms : List Atom) (out : BuildOutcome atoms.length) : Prop :=
  (validInput atoms ∧ out = BuildOutcome.ok (coulombBase atoms)) ∨
    (¬ validInput atoms ∧ out = BuildOutcome.invalidInput)

/-- Claim C3: the `coulomb` function as written returns the all-zeros matrix
of shape `len(q) × len(q)`: it allocates a zero matrix and returns it
without filling any entry. -/
theorem coulomb_stub_returns_zeros (geom : List Vec3) (q : List ℝ) :
    (coulomb geom q).rows = q.length ∧ (coulomb geom q).cols = q.length ∧
      ∀ i j : Nat, (coulomb geom q).entry i j = 0 :=
  ⟨rfl, rfl, fun _ _ => rfl⟩

/-- Claim C10: the shape of the matrix returned by `coulomb` is
`len(q) × len(q)`, determined solely by the charge list; the geometry list
is never read, so any two geometry lists (in particular ones whose length
does not match `len(q)`) give the identical result. -/
theorem coulomb_stub_shape_from_charges (q : List ℝ) :
    (∀ geom : List Vec3, (coulomb geom q).rows = q.length ∧
      (coulomb geom q).cols = q.length) ∧
    ∀ geom geom' : List Vec3, coulomb geom q = coulomb geom' q :=
  ⟨fun _ => ⟨rfl, rfl⟩, fun _ _ => rfl⟩

/-- Distance is symmetric in its two endpoints. -/
lemma dist3_comm (u v : Vec3) : dist3 u v = dist3 v u := by
  unfold dist3
  congr 1
  ring

/-- A concrete two-atom input used to witness the universally quantified
claims: charges 2 and 3 at distinct positions. -/
noncomputable def pairAtoms : List Atom :=
  [{ position := (0, 0, 0), charge := 2 }, { position := (3, 4, 0), charge := 3 }]

/-- The concrete two-atom input is valid: it is nonempty and the two
positions differ. -/
lemma pairAtoms_valid : validInput pairAtoms := by
  constructor
  · simp [pairAtoms]
  · intro i j hij
    fin_cases i <;> fin_cases j <;>
      simp_all [pairAtoms, Prod.ext_iff]

/-- Claim C1: for every atom list with at least one atom and
pairwise-distinct positions, every off-diagonal entry of the base matrix
equals the product of the two charges divided by the Euclidean distance
between the two positions. -/
theorem coulombBase_offdiag (atoms : List Atom) (h : validInput atoms)
    (i j : Fin atoms.length) (hij : i ≠ j) :
    coulombBase atoms i j =
      ((atoms.get i).charge * (atoms.get j).charge) /
        dist3 (atoms.get i).position (atoms.get j).position := by
  unfold coulombBase
  rw [if_neg hij]

/-- Witness for C1 at the concrete two-atom input. -/
theorem coulombBase_offdiag_witness :
    validInput pairAtoms ∧
      coulombBase pairAtoms ⟨0, by simp [pairAtoms]⟩ ⟨1, by simp [pairAtoms]⟩ =
        ((pairAtoms.get ⟨0, by simp [pairAtoms]⟩).charge *
            (pairAtoms.get ⟨1, by simp [pairAtoms]⟩).charge) /
          dist3 (pairAtoms.get ⟨0, by simp [pairAtoms]⟩).position
            (pairAtoms.get ⟨1, by simp [pairAtoms]⟩).position :=
  ⟨pairAtoms_valid,
    coulombBase_offdiag pairAtoms pairAtoms_valid _ _ (by decide)⟩

/-- Claim C2: for every atom list with at least one atom and
pairwise-distinct positions, with no field descriptor supplied, every
diagonal entry of the base matrix equals `0.5 * charge ^ 2.4` with real
exponentiation. -/
theorem coulombBase_diag (atoms : List Atom) (h : validInput atoms)
    (i : Fin atoms.length) :
    coulombBase atoms i i = 0.5 * (atoms.get i).charge ^ (2.4 : ℝ) := by
  unfold coulombBase
  rw [if_pos rfl]

/-- Witness for C2 at the concrete two-atom input. -/
theorem coulombBase_diag_witness :
    validInput pairAtoms ∧
      coulombBase pairAtoms ⟨0, by simp [pairAtoms]⟩ ⟨0, by simp [pairAtoms]⟩ =
        0.5 * (pairAtoms.get ⟨0, by simp [pairAtoms]⟩).charge ^ (2.4 : ℝ) :=
  ⟨pairAtoms_valid, coulombBase_diag pairAtoms pairAtoms_valid _⟩

/-- Claim C5: for every valid atom list, with or without a field
descriptor, the produced matrix is symmetric in every off-diagonal pair. -/
theorem coulomb_matrix_symm (atoms : List Atom) (lam : Vec3) (alpha : ℝ)
    (h : validInput atoms) (i j : Fin atoms.length) (hij : i ≠ j) :
    coulombBase atoms i j = coulombBase atoms j i ∧
      coulombField atoms lam alpha i j = coulombField atoms lam alpha j i := by
  unfold coulombBase coulombField
  simp only [if_neg hij, if_neg (Ne.symm hij)]
  rw [dist3_comm]
  exact ⟨by ring, by ring⟩

/-- Witness for C5 at the concrete two-atom input with field vector
`(1, 2, 3)` and coupling strength 7. -/
theorem coulomb_matrix_symm_witness :
    validInput pairAtoms ∧
      (coulombBase pairAtoms ⟨0, by simp [pairAtoms]⟩ ⟨1, by simp [pairAtoms]⟩ =
          coulombBase pairAtoms ⟨1, by simp [pairAtoms]⟩ ⟨0, by simp [pairAtoms]⟩ ∧
        coulombField pairAtoms (1, 2, 3) 7 ⟨0, by simp [pairAtoms]⟩
            ⟨1, by simp [pairAtoms]⟩ =
          coulombField pairAtoms (1, 2, 3) 7 ⟨1, by simp [pairAtoms]⟩
            ⟨0, by simp [pairAtoms]⟩) :=
  ⟨pairAtoms_valid,
    coulomb_matrix_symm pairAtoms (1, 2, 3) 7 pairAtoms_valid _ _ (by decide)⟩

/-- Claim C8: for every valid atom list and every field vector, the
field-extended variant with coupling strength 0 returns exactly the base
(no-field) matrix. -/
theorem field_zero_alpha_eq_base (atoms : List Atom) (lam : Vec3)
    (h : validInput atoms) (i j : Fin atoms.length) :
    coulombField atoms lam 0 i j = coulombBase atoms i j := by
  unfold coulombField coulombBase
  by_cases hij : i = j
  · rw [if_pos hij, if_pos hij]
    ring
  · rw [if_neg hij, if_neg hij]

/-- Witness for C8 at the concrete two-atom input with field vector
`(1, 2, 3)`. -/
theorem field_zero_alpha_eq_base_witness :
    validInput pairAtoms ∧
      coulombField pairAtoms (1, 2, 3) 0 ⟨0, by simp [pairAtoms]⟩
          ⟨1, by simp [pairAtoms]⟩ =
        coulombBase pairAtoms ⟨0, by simp [pairAtoms]⟩ ⟨1, by simp [pairAtoms]⟩ :=
  ⟨pairAtoms_valid, field_zero_alpha_eq_base pairAtoms (1, 2, 3) pairAtoms_valid _ _⟩

/-- Claim C6: called with the empty atom list, the builder fails with the
`InvalidInput` error rather than returning a zero-size matrix. -/
theorem empty_input_invalid (out : BuildOutcome ([] : List Atom).length)
    (h : buildBase [] out) : out = BuildOutcome.invalidInput := by
  rcases h with ⟨hv, _⟩ | ⟨_, hout⟩
  · exact absurd rfl hv.1
  · exact hout

/-- Witness for C6: the `InvalidInput` outcome satisfies the builder
contract on the empty list, and the theorem pins it down. -/
theorem empty_input_invalid_witness :
    buildBase ([] : List Atom) BuildOutcome.invalidInput ∧
      (BuildOutcome.invalidInput : BuildOutcome ([] : List Atom).length) =
        BuildOutcome.invalidInput := by
  have hb : buildBase ([] : List Atom) BuildOutcome.invalidInput :=
    Or.inr ⟨fun hv => hv.1 rfl, rfl⟩
  exact ⟨hb, empty_input_invalid _ hb⟩

/-- Claim C7: for every atom list in which two distinct atoms occupy
exactly the same position, the builder fails with the `InvalidInput` error;
in particular it returns no matrix at all. -/
theorem coincident_input_invalid (atoms : List Atom) (i j : Fin atoms.length)
    (hij : i ≠ j)
    (hpos : (atoms.get i).position = (atoms.get j).position)
    (out : BuildOutcome atoms.length) (h : buildBase atoms out) :
    out = BuildOutcome.invalidInput := by
  rcases h with ⟨hv, _⟩ | ⟨_, hout⟩
  · exact absurd hpos (hv.2 i j hij)
  · exact hout

/-- A concrete two-atom input whose atoms coincide. -/
noncomputable def coincidentAtoms : List Atom :=
  [{ position := (1, 1, 1), charge := 2 }, { position := (1, 1, 1), charge := 3 }]

/-- Witness for C7 at the concrete coincident two-atom input. -/
theorem coincident_input_invalid_witness :
    (⟨0, by simp [coincidentAtoms]⟩ : Fin coincidentAtoms.length) ≠
        ⟨1, by simp [coincidentAtoms]⟩ ∧
      (coincidentAtoms.get ⟨0, by simp [coincidentAtoms]⟩).position =
        (coincidentAtoms.get ⟨1, by simp [coincidentAtoms]⟩).position ∧
      buildBase coincidentAtoms BuildOutcome.invalidInput ∧
      (BuildOutcome.invalidInput : BuildOutcome coincidentAtoms.length) =
        BuildOutcome.invalidInput := by
  have hij : (⟨0, by simp [coincidentAtoms]⟩ : Fin coincidentAtoms.length) ≠
      ⟨1, by simp [coincidentAtoms]⟩ := by decide
  have hpos : (coincidentAtoms.get ⟨0, by simp [coincidentAtoms]⟩).position =
      (coincidentAtoms.get ⟨1, by simp [coincidentAtoms]⟩).position := rfl
  have hnv : ¬ validInput coincidentAtoms := fun hv => hv.2 _ _ hij hpos
  have hb : buildBase coincidentAtoms BuildOutcome.invalidInput :=
    Or.inr ⟨hnv, rfl⟩
  exact ⟨hij, hpos, hb, coincident_input_invalid coincidentAtoms _ _ hij hpos _ hb⟩

/-- Permuting the atom list: entry k of the permuted list is entry p(k) of
the original list. -/
noncomputable def permuteAtoms (atoms : List Atom)
    (p : Equiv.Perm (Fin atoms.length)) : List Atom :=
  List.ofFn (fun i => atoms.get (p i))

/-- Permuting the atom list preserves its length. -/
lemma permuteAtoms_length (atoms : List Atom)
    (p : Equiv.Perm (Fin atoms.length)) :
    (permuteAtoms atoms p).length = atoms.length := by
  simp [permuteAtoms]

/-- Entries of the permuted list. -/
lemma permuteAtoms_get (atoms : List Atom)
    (p : Equiv.Perm (Fin atoms.length))
    (k : Fin (permuteAtoms atoms p).length) :
    (permuteAtoms atoms p).get k =
      atoms.get (p (Fin.cast (permuteAtoms_length atoms p) k)) := by
  simp only [permuteAtoms, List.get_ofFn]

/-- Claim C9: for every valid atom list and every permutation p of its
indices, the base matrix of the permuted list is the base matrix of the
original list with rows and columns simultaneously permuted by p. -/
theorem coulombBase_perm_equivariant (atoms : List Atom)
    (p : Equiv.Perm (Fin atoms.length)) (h : validInput atoms)
    (i j : Fin (permuteAtoms atoms p).length) :
    coulombBase (permuteAtoms atoms p) i j =
      coulombBase atoms (p (Fin.cast (permuteAtoms_length atoms p) i))
        (p (Fin.cast (permuteAtoms_length atoms p) j)) := by
  unfold coulombBase
  rw [permuteAtoms_get, permuteAtoms_get]
  by_cases hij : i = j
  · subst hij
    rw [if_pos rfl, if_pos rfl]
  · have hpij : p (Fin.cast (permuteAtoms_length atoms p) i) ≠
        p (Fin.cast (permuteAtoms_length atoms p) j) := by
      intro hEq
      apply hij
      have hc := p.injective hEq
      exact Fin.ext (by simpa using congrArg Fin.val hc)
    rw [if_neg hij, if_neg hpij]

/-- The transposition of the two indices of the concrete two-atom input. -/
noncomputable def pairSwap : Equiv.Perm (Fin pairAtoms.length) :=
  Equiv.swap ⟨0, by simp [pairAtoms]⟩ ⟨1, by simp [pairAtoms]⟩

/-- Witness for C9: the concrete two-atom input with the transposition of
its two indices. -/
theorem coulombBase_perm_equivariant_witness :
    validInput pairAtoms ∧
      coulombBase (permuteAtoms pairAtoms pairSwap)
          ⟨0, by simp [permuteAtoms, pairAtoms]⟩
          ⟨1, by simp [permuteAtoms, pairAtoms]⟩ =
        coulombBase pairAtoms
          (pairSwap (Fin.cast (permuteAtoms_length pairAtoms pairSwap)
            ⟨0, by simp [permuteAtoms, pairAtoms]⟩))
          (pairSwap (Fin.cast (permuteAtoms_length pairAtoms pairSwap)
            ⟨1, by simp [permuteAtoms, pairAtoms]⟩)) :=
  ⟨pairAtoms_valid,
    coulombBase_perm_equivariant pairAtoms pairSwap pairAtoms_valid _ _⟩

/-- The H-O-H angle of the water-like geometry: 104.5 degrees in radians. -/
noncomputable def waterAngle : ℝ := 104.5 * Real.pi / 180

/-- Water-like three-atom geometry with charges [8, 1, 1]: the oxygen at
the origin, one hydrogen on the x-axis at distance r, the second hydrogen
at distance r from the oxygen rotated by the water angle in the xy-plane. -/
noncomputable def waterAtoms (r : ℝ) : List Atom :=
  [ { position := (0, 0, 0), charge := 8 },
    { position := (r, 0, 0), charge := 1 },
    { position := (r * Real.cos waterAngle, r * Real.sin waterAngle, 0),
      charge := 1 } ]

/-- The reference matrix printed in the notebook below the coulomb cell for
`couls[0]`. -/
noncomputable def refMatrix : Fin 3 → Fin 3 → ℝ :=
  fun i j =>
    if i = 0 then (if j = 0 then 73.51669472 else 8.46683537)
    else if j = 0 then 8.46683537
    else if i = j then 0.5 else 0.66926039

/-- Bohr-to-angstrom conversion factor of the geometry backend
(`mol.geometry()` always returns cartesian coordinates in Bohr). -/
noncomputable def bohr2angstrom : ℝ := 0.52917721067

/-- O-H bond length of the first scan geometry (0.5 angstrom), expressed in
Bohr, the internal coordinate unit. -/
noncomputable def rFirst : ℝ := 0.5 / bohr2angstrom

/-- Distance from the origin to the first hydrogen. -/
lemma dist_water_OH1 (r : ℝ) (hr : 0 ≤ r) :
    dist3 (0, 0, 0) (r, 0, 0) = r := by
  unfold dist3
  rw [show ((0:ℝ) - r) ^ 2 + ((0:ℝ) - 0) ^ 2 + ((0:ℝ) - 0) ^ 2 = r ^ 2 from by
    ring]
  exact Real.sqrt_sq hr

/-- Distance from the origin to the second hydrogen. -/
lemma dist_water_OH2 (r : ℝ) (hr : 0 ≤ r) :
    dist3 (0, 0, 0)
      (r * Real.cos waterAngle, r * Real.sin waterAngle, 0) = r := by
  unfold dist3
  have hpyth := Real.sin_sq_add_cos_sq waterAngle
  rw [show ((0:ℝ) - r * Real.cos waterAngle) ^ 2 +
      ((0:ℝ) - r * Real.sin waterAngle) ^ 2 + ((0:ℝ) - 0) ^ 2 = r ^ 2 from by
    linear_combination r ^ 2 * hpyth]
  exact Real.sqrt_sq hr

/-- Half the water angle lies in the first half-period, so its sine is
nonnegative. -/
lemma sin_half_waterAngle_nonneg : 0 ≤ Real.sin (waterAngle / 2) := by
  apply Real.sin_nonneg_of_nonneg_of_le_pi
  · unfold waterAngle
    positivity
  · unfold waterAngle
    nlinarith [Real.pi_pos]

/-- The cosine of the water angle in terms of the sine of its half. -/
lemma cos_waterAngle_eq : Real.cos waterAngle =
    1 - 2 * Real.sin (waterAngle / 2) ^ 2 := by
  have hp2 := Real.sin_sq_add_cos_sq (waterAngle / 2)
  calc Real.cos waterAngle = Real.cos (2 * (waterAngle / 2)) := by ring_nf
    _ = 2 * Real.cos (waterAngle / 2) ^ 2 - 1 := Real.cos_two_mul _
    _ = 1 - 2 * Real.sin (waterAngle / 2) ^ 2 := by linarith

/-- Distance between the two hydrogens: the isoceles-triangle chord
formula. -/
lemma dist_water_HH (r : ℝ) (hr : 0 ≤ r) :
    dist3 (r, 0, 0) (r * Real.cos waterAngle, r * Real.sin waterAngle, 0) =
      2 * r * Real.sin (waterAngle / 2) := by
  unfold dist3
  have hpyth := Real.sin_sq_add_cos_sq waterAngle
  have hcos := cos_waterAngle_eq
  rw [show (r - r * Real.cos waterAngle) ^ 2 +
      ((0:ℝ) - r * Real.sin waterAngle) ^ 2 + ((0:ℝ) - 0) ^ 2 =
      (2 * r * Real.sin (waterAngle / 2)) ^ 2 from by
    linear_combination r ^ 2 * hpyth - 2 * r ^ 2 * hcos]
  exact Real.sqrt_sq
    (mul_nonneg (mul_nonneg (by norm_num) hr) sin_half_waterAngle_nonneg)

/-- Rational lower bound on one twenty-seventh of half the water angle. -/
lemma u_lb : (3377534609/100000000000 : ℝ) ≤ 209 * Real.pi / 19440 := by
  nlinarith [Real.pi_gt_d6]

/-- Rational upper bound on one twenty-seventh of half the water angle. -/
lemma u_ub : 209 * Real.pi / 19440 ≤ (675507137/20000000000 : ℝ) := by
  nlinarith [Real.pi_lt_d6]

/-- Taylor-based rational bounds on the sine of the reduced angle. -/
lemma sin_u_bounds :
    (3376885663/100000000000 : ℝ) ≤ Real.sin (209 * Real.pi / 19440) ∧
      Real.sin (209 * Real.pi / 19440) ≤ (422112537/12500000000 : ℝ) := by
  have hlb := u_lb
  have hub := u_ub
  set u := 209 * Real.pi / 19440 with hu
  have hupos : (0:ℝ) < u := lt_of_lt_of_le (by norm_num) hlb
  have habs : |u| ≤ 1 := by
    rw [abs_of_pos hupos]
    linarith
  have hb := Real.sin_bound habs
  rw [abs_of_pos hupos] at hb
  have hb' := abs_le.mp hb
  have h3ub : u ^ 3 ≤ (675507137/20000000000 : ℝ) ^ 3 :=
    pow_le_pow_left₀ (le_of_lt hupos) hub 3
  have h3lb : (3377534609/100000000000 : ℝ) ^ 3 ≤ u ^ 3 :=
    pow_le_pow_left₀ (by norm_num) hlb 3
  have h4ub : u ^ 4 ≤ (675507137/20000000000 : ℝ) ^ 4 :=
    pow_le_pow_left₀ (le_of_lt hupos) hub 4
  constructor
  · nlinarith [hb'.1, h3ub, h4ub]
  · nlinarith [hb'.2, h3lb, h4ub]

/-- Monotone propagation of rational bounds through the triple-angle
polynomial. -/
lemma triple_step_bounds {s a b : ℝ} (ha : a ≤ s) (hb : s ≤ b)
    (ha0 : 0 ≤ a) :
    3 * a - 4 * b ^ 3 ≤ 3 * s - 4 * s ^ 3 ∧
      3 * s - 4 * s ^ 3 ≤ 3 * b - 4 * a ^ 3 := by
  have h0s : (0:ℝ) ≤ s := le_trans ha0 ha
  have h1 : s ^ 3 ≤ b ^ 3 := pow_le_pow_left₀ h0s hb 3
  have h2 : a ^ 3 ≤ s ^ 3 := pow_le_pow_left₀ ha0 ha 3
  exact ⟨by linarith, by linarith⟩

/-- Bounds after the first triple-angle step. -/
lemma sin_3u_bounds :
    (2023050731/20000000000 : ℝ) ≤ Real.sin (3 * (209 * Real.pi / 19440)) ∧
      Real.sin (3 * (209 * Real.pi / 19440)) ≤ (2528824439/25000000000 : ℝ) := by
  rw [Real.sin_three_mul]
  have h := triple_step_bounds sin_u_bounds.1 sin_u_bounds.2 (by norm_num)
  exact ⟨by nlinarith [h.1], by nlinarith [h.2]⟩

/-- Bounds after the second triple-angle step. -/
lemma sin_9u_bounds :
    (14965882549/50000000000 : ℝ) ≤
        Real.sin (3 * (3 * (209 * Real.pi / 19440))) ∧
      Real.sin (3 * (3 * (209 * Real.pi / 19440))) ≤
        (29931902817/100000000000 : ℝ) := by
  rw [Real.sin_three_mul]
  have h := triple_step_bounds sin_3u_bounds.1 sin_3u_bounds.2 (by norm_num)
  exact ⟨by nlinarith [h.1], by nlinarith [h.2]⟩

/-- Rational bounds on the sine of half the water angle, after the third
triple-angle step. -/
lemma sin_half_waterAngle_bounds :
    (79068673437/100000000000 : ℝ) ≤ Real.sin (waterAngle / 2) ∧
      Real.sin (waterAngle / 2) ≤ (79069234657/100000000000 : ℝ) := by
  have h27 : waterAngle / 2 = 3 * (3 * (3 * (209 * Real.pi / 19440))) := by
    unfold waterAngle
    ring
  rw [h27, Real.sin_three_mul]
  have h := triple_step_bounds sin_9u_bounds.1 sin_9u_bounds.2 (by norm_num)
  exact ⟨by nlinarith [h.1], by nlinarith [h.2]⟩

/-- Rational bounds on 8 to the real power 2.4, via its fifth power. -/
lemma rpow_8_24_bounds :
    (147033380/1000000 : ℝ) ≤ (8:ℝ) ^ (2.4:ℝ) ∧
      (8:ℝ) ^ (2.4:ℝ) ≤ (147033399/1000000 : ℝ) := by
  have hX5 : ((8:ℝ) ^ (2.4:ℝ)) ^ (5:ℕ) = (8:ℝ) ^ (12:ℕ) := by
    rw [← Real.rpow_natCast ((8:ℝ) ^ (2.4:ℝ)) 5,
      ← Real.rpow_mul (by norm_num : (0:ℝ) ≤ 8),
      show (2.4:ℝ) * ((5:ℕ):ℝ) = ((12:ℕ):ℝ) from by norm_num,
      Real.rpow_natCast]
  have hXpos : (0:ℝ) < (8:ℝ) ^ (2.4:ℝ) := Real.rpow_pos_of_pos (by norm_num) _
  constructor
  · have h5 : ((147033380/1000000:ℝ)) ^ (5:ℕ) < ((8:ℝ) ^ (2.4:ℝ)) ^ (5:ℕ) := by
      rw [hX5]
      norm_num
    exact le_of_lt (lt_of_pow_lt_pow_left₀ 5 (le_of_lt hXpos) h5)
  · have h5 : ((8:ℝ) ^ (2.4:ℝ)) ^ (5:ℕ) < ((147033399/1000000:ℝ)) ^ (5:ℕ) := by
      rw [hX5]
      norm_num
    exact le_of_lt (lt_of_pow_lt_pow_left₀ 5 (by norm_num) h5)

/-- Numeric check of the oxygen diagonal entry. -/
lemma entry_diag_O : |0.5 * (8:ℝ) ^ (2.4:ℝ) - 73.51669472| < 1e-5 := by
  obtain ⟨hl, hu⟩ := rpow_8_24_bounds
  rw [abs_lt]
  constructor <;> nlinarith

/-- Numeric check of the hydrogen diagonal entries. -/
lemma entry_diag_H : |0.5 * (1:ℝ) ^ (2.4:ℝ) - 0.5| < 1e-5 := by
  rw [Real.one_rpow]
  norm_num

/-- Numeric check of the oxygen-hydrogen off-diagonal entries. -/
lemma entry_OH_val : |(8:ℝ) / rFirst - 8.46683537| < 1e-5 := by
  unfold rFirst bohr2angstrom
  rw [abs_lt]
  constructor <;> norm_num

/-- Numeric check of the hydrogen-hydrogen off-diagonal entries. -/
lemma entry_HH_val :
    |(1:ℝ) * 1 / (2 * rFirst * Real.sin (waterAngle / 2)) - 0.66926039| <
      1e-5 := by
  obtain ⟨hl, hu⟩ := sin_half_waterAngle_bounds
  have hpos : (0:ℝ) < Real.sin (waterAngle / 2) :=
    lt_of_lt_of_le (by norm_num) hl
  have hval : (1:ℝ) * 1 / (2 * rFirst * Real.sin (waterAngle / 2)) =
      (0.52917721067:ℝ) / Real.sin (waterAngle / 2) := by
    unfold rFirst bohr2angstrom
    rw [show (2 * ((0.5:ℝ) / 0.52917721067) * Real.sin (waterAngle / 2)) =
        Real.sin (waterAngle / 2) / 0.52917721067 from by ring]
    rw [one_mul, one_div_div]
  rw [hval, abs_lt]
  constructor
  · have h2 : ((0.66926039:ℝ) - 1e-5) * Real.sin (waterAngle / 2) <
        0.52917721067 := by nlinarith [hu]
    have h3 := (lt_div_iff₀ hpos).mpr h2
    linarith
  · have h2 : (0.52917721067:ℝ) <
        ((0.66926039:ℝ) + 1e-5) * Real.sin (waterAngle / 2) := by
      nlinarith [hl]
    have h3 := (div_lt_iff₀ hpos).mpr h2
    linarith

/-- Counterexample to claim C4 as stated: with the O-H distance taken to be
0.9584 in the internal coordinate units, the (0,1) entry of the completed
matrix is 8/0.9584, which misses the printed reference value 8.46683537 by
about 0.12, far outside the 1e-5 tolerance.  Hence the claimed geometry
does not reproduce the reference matrix. -/
theorem waterClaimed_entry_mismatch :
    ¬ ∀ i j : Fin (waterAtoms (0.9584 : ℝ)).length,
        |coulombBase (waterAtoms (0.9584 : ℝ)) i j - refMatrix i j| ≤
          1e-5 := by
  intro hAll
  have h01 := hAll ⟨0, by simp [waterAtoms]⟩ ⟨1, by simp [waterAtoms]⟩
  have hd := dist_water_OH1 (0.9584 : ℝ) (by norm_num)
  revert h01
  show ¬ |(8:ℝ) * 1 / dist3 (0, 0, 0) ((0.9584:ℝ), 0, 0) - 8.46683537| ≤ 1e-5
  rw [mul_one, hd]
  intro h
  rw [abs_le] at h
  have h1 := h.1
  norm_num at h1

/-- Claim C4 as amended: the printed reference matrix corresponds to the
first geometry of the scan, whose O-H distance is 0.5 angstrom (0.94486
Bohr in internal units), not 0.9584; with that distance and the 104.5
degree angle every entry of the completed matrix is within 1e-5 of the
printed value. -/
theorem waterFirst_matches_reference :
    ∀ i j : Fin (waterAtoms rFirst).length,
      |coulombBase (waterAtoms rFirst) i j - refMatrix i j| < 1e-5 := by
  have hr : (0:ℝ) ≤ rFirst := by
    unfold rFirst bohr2angstrom
    norm_num
  have hOH1 := dist_water_OH1 rFirst hr
  have hOH2 := dist_water_OH2 rFirst hr
  have hHH := dist_water_HH rFirst hr
  intro i j
  fin_cases i <;> fin_cases j
  · show |0.5 * (8:ℝ) ^ (2.4:ℝ) - 73.51669472| < 1e-5
    exact entry_diag_O
  · show |(8:ℝ) * 1 / dist3 (0, 0, 0) (rFirst, 0, 0) - 8.46683537| < 1e-5
    rw [mul_one, hOH1]
    exact entry_OH_val
  · show |(8:ℝ) * 1 / dist3 (0, 0, 0)
        (rFirst * Real.cos waterAngle, rFirst * Real.sin waterAngle, 0) -
        8.46683537| < 1e-5
    rw [mul_one, hOH2]
    exact entry_OH_val
  · show |(1:ℝ) * 8 / dist3 (rFirst, 0, 0) (0, 0, 0) - 8.46683537| < 1e-5
    rw [one_mul, dist3_comm, hOH1]
    exact entry_OH_val
  · show |0.5 * (1:ℝ) ^ (2.4:ℝ) - 0.5| < 1e-5
    exact entry_diag_H
  · show |(1:ℝ) * 1 / dist3 (rFirst, 0, 0)
        (rFirst * Real.cos waterAngle, rFirst * Real.sin waterAngle, 0) -
        0.66926039| < 1e-5
    rw [hHH]
    exact entry_HH_val
  · show |(1:ℝ) * 8 / dist3
        (rFirst * Real.cos waterAngle, rFirst * Real.sin waterAngle, 0)
        (0, 0, 0) - 8.46683537| < 1e-5
    rw [one_mul, dist3_comm, hOH2]
    exact entry_OH_val
  · show |(1:ℝ) * 1 / dist3
        (rFirst * Real.cos waterAngle, rFirst * Real.sin waterAngle, 0)
        (rFirst, 0, 0) - 0.66926039| < 1e-5
    rw [dist3_comm, hHH]
    exact entry_HH_val
  · show |0.5 * (1:ℝ) ^ (2.4:ℝ) - 0.5| < 1e-5
    exact entry_diag_H
